import Mathlib

/-!
Verification development for the OpenCV-based multi-object tracker of
PeekingDuckX (`peekingduck/pipeline/nodes/dabble/utils/tracking_files/
opencv_tracking.py`).

The tracker state, the per-frame entry point `run`, the association engine
`_if_new_bbox_add_track` and the registry helper `_initialize_tracker` are
embedded shallowly below.  Machine floats of the Python code are modelled by
rationals; Python `round(x, 1)` by exact round-half-to-even to a multiple of
1/10.  The opaque OpenCV single-object trackers are abstracted by an
environment `env : ℕ → Option Box` giving, for the current frame, the result
of `tracker.update(frame)` for the tracker owned by each track id (`some b` =
success with predicted box `b`, `none` = tracking failure).  Fallible code
(Python exceptions such as `max()` on an empty sequence) is modelled with
`Option`: `none` is an uncaught exception escaping `run`.
-/

namespace OpenCVTracking

/-- A bounding box: four coordinates, as a row of the numpy arrays the Python
code passes around.  Rationals stand for the machine floats. -/
structure Box where
  x1 : ℚ
  y1 : ℚ
  x2 : ℚ
  y2 : ℚ
deriving DecidableEq, Repr

/-- The mutable attributes of an `OpenCVTracker` object that the embedded code
reads or writes.  The registry `trackingDict` is an insertion-ordered mapping
(Python `dict`) from track id to the track's last stored bounding box; the
opaque OpenCV tracker object held next to the box is abstracted away (its
per-frame update result comes from the environment). -/
structure TrackerState where
  firstFrameOrNot : Bool
  nextObjectId : ℕ
  trackingDict : List (ℕ × Box)
deriving DecidableEq, Repr

/-- `OpenCVTracker.__init__`: first frame pending, id counter 0, empty
registry. -/
def initState : TrackerState :=
  { firstFrameOrNot := true, nextObjectId := 0, trackingDict := [] }

/-- Modelled from the spec: `format_boxes` lives in
`tracking_files/iou_tracker/utils.py`, which is not among the repository
files; per spec §4.1 it converts a normalized `[x1,y1,x2,y2]` box to absolute
pixel coordinates by scaling x-components by the frame width and y-components
by the frame height, as a pure function. -/
def formatBox (frameH frameW : ℚ) (b : Box) : Box :=
  { x1 := b.x1 * frameW, y1 := b.y1 * frameH
    x2 := b.x2 * frameW, y2 := b.y2 * frameH }

/-- Modelled from the spec: `iou` lives in
`tracking_files/iou_tracker/utils.py`, which is not among the repository
files; per spec §4.1, for one candidate it is the intersection area divided by
`area(box) + area(candidate) - intersection`, and it yields 0 when the boxes
do not overlap or a dimension is degenerate. -/
def iouOne (b c : Box) : ℚ :=
  let iw := min b.x2 c.x2 - max b.x1 c.x1
  let ih := min b.y2 c.y2 - max b.y1 c.y1
  if iw ≤ 0 ∨ ih ≤ 0 then 0
  else
    let inter := iw * ih
    let areaB := (b.x2 - b.x1) * (b.y2 - b.y1)
    let areaC := (c.x2 - c.x1) * (c.y2 - c.y1)
    let denom := areaB + areaC - inter
    if denom ≤ 0 then 0 else inter / denom

/-- Modelled from the spec: `iou(box, candidates)` over a sequence of
candidates returns one score per candidate and the empty result on the empty
candidate set (spec §4.1). -/
def iouList (b : Box) (candidates : List Box) : List ℚ :=
  candidates.map (iouOne b)

/-- Python `max` on a nonempty sequence (the `[]` case is never consulted:
the code guards it by raising, which the callers model as `none`). -/
def maxList : List ℚ → ℚ
  | [] => 0
  | x :: xs => xs.foldl max x

/-- `numpy.argmax`: the index of the first occurrence of the maximum. -/
def argmaxList (l : List ℚ) : ℕ :=
  l.findIdx (fun x => decide (x = maxList l))

/-- Round-half-to-even to an integer, as Python `round` ties are resolved. -/
def roundHalfEvenInt (x : ℚ) : ℤ :=
  let f := ⌊x⌋
  if x - f < 1 / 2 then f
  else if 1 / 2 < x - f then f + 1
  else if f % 2 = 0 then f else f + 1

/-- Python `round(x, 1)`: round to the nearest multiple of 1/10, ties to
even. -/
def roundTo1 (x : ℚ) : ℚ :=
  (roundHalfEvenInt (10 * x) : ℚ) / 10

/-- `self.iou_thresh` as set in `__init__`. -/
def iouThresh : ℚ := 1 / 10

/-- Python `dict.update({k: v})` on an insertion-ordered association list: an
existing key keeps its position and gets the new value, a fresh key is
appended at the end. -/
def dictUpdate {α β : Type} [DecidableEq α] (d : List (α × β)) (k : α) (v : β) :
    List (α × β) :=
  if d.any (fun p => decide (p.1 = k)) then
    d.map (fun p => if p.1 = k then (k, v) else p)
  else d ++ [(k, v)]

/-- `OpenCVTracker._initialize_tracker`: bump `next_object_id`, then insert the
new id with the box (the freshly created OpenCV tracker object is opaque and
not represented). -/
def initializeTracker (bbox : Box) (s : TrackerState) : TrackerState :=
  { firstFrameOrNot := s.firstFrameOrNot
    nextObjectId := s.nextObjectId + 1
    trackingDict := dictUpdate s.trackingDict (s.nextObjectId + 1) bbox }

/-- The first loop of `_if_new_bbox_add_track`: for each current-frame box,
compute its IoU scores against the previous frames' tracked boxes and store
`argmax` when `round(max(ious), 1) >= iou_thresh`, else `None`, keyed by the
box tuple in `matching_dict`.  `max` of the empty score list raises
(`none`). -/
def matchingLoop (prevBoxes : List Box) :
    List Box → List (Box × Option ℕ) → Option (List (Box × Option ℕ))
  | [], md => some md
  | box :: rest, md =>
    let ious := iouList box prevBoxes
    if ious.isEmpty then none
    else
      matchingLoop prevBoxes rest
        (dictUpdate md box
          (if iouThresh ≤ roundTo1 (maxList ious) then some (argmaxList ious)
           else none))

/-- The second loop of `_if_new_bbox_add_track`: turn each `matching_dict`
entry into a tag.  A matched entry reads the id at the stored index of the
registry's current key list (`list(self.tracking_dict)[v]`); an unmatched one
creates a new tracker and reads the last key
(`list(self.tracking_dict)[-1]`).  An out-of-range index raises (`none`). -/
def tagLoop :
    List (Box × Option ℕ) → List String → TrackerState →
      Option (List String × TrackerState)
  | [], acc, s => some (acc, s)
  | (k, v) :: rest, acc, s =>
    match v with
    | some i =>
      match (s.trackingDict.map Prod.fst).get? i with
      | some id => tagLoop rest (acc ++ [toString id]) s
      | none => none
    | none =>
      let s' := initializeTracker k s
      match (s'.trackingDict.map Prod.fst).getLast? with
      | some id => tagLoop rest (acc ++ [toString id]) s'
      | none => none

/-- The final list comprehension of `_if_new_bbox_add_track`: append each tag,
but append `""` instead when the tag already occurs in the output built so
far. -/
def dedupTags (l : List String) : List String :=
  l.foldl (fun acc x => if x ∈ acc then acc ++ [""] else acc ++ [x]) []

/-- `OpenCVTracker._if_new_bbox_add_track`: snapshot the previous frames'
tracked boxes, run the matching loop, then the tag loop, then replace
duplicate tags. -/
def ifNewBboxAddTrack (bboxes : List Box) (s : TrackerState) :
    Option (List String × TrackerState) :=
  match matchingLoop (s.trackingDict.map Prod.snd) bboxes [] with
  | none => none
  | some md =>
    match tagLoop md [] s with
    | none => none
    | some (trackId, s') => some (dedupTags trackId, s')

/-- The per-frame tracker update/eviction pass at the end of `run`: iterate
over a copy of the registry, on success overwrite the stored box with the
tracker's prediction, on failure delete the track. -/
def evictPass (env : ℕ → Option Box) (d : List (ℕ × Box)) : List (ℕ × Box) :=
  d.filterMap (fun p => (env p.1).map (fun nb => (p.1, nb)))

/-- `OpenCVTracker.run` on one frame: copy and format the detections; on the
first frame initialize one tracker per box and tag with the registry's keys,
afterwards delegate to the association engine; finally run the unconditional
update/eviction pass.  `env` abstracts the opaque OpenCV trackers' update
results on this frame; `none` is an uncaught exception. -/
def runStep (env : ℕ → Option Box) (frameH frameW : ℚ) (inBoxes : List Box)
    (s : TrackerState) : Option (List String × TrackerState) :=
  let bboxes := inBoxes.map (formatBox frameH frameW)
  let firstPart : Option (List String × TrackerState) :=
    if s.firstFrameOrNot then
      let s' := bboxes.foldl (fun st b => initializeTracker b st) s
      some ((s'.trackingDict.map Prod.fst).map (fun x => toString x),
            { s' with firstFrameOrNot := false })
    else ifNewBboxAddTrack bboxes s
  match firstPart with
  | none => none
  | some (objTags, s1) =>
    some (objTags, { s1 with trackingDict := evictPass env s1.trackingDict })

/-- The registry invariant maintained by the code: keys are listed in strictly
increasing order and every key is a positive integer no larger than
`next_object_id`. -/
def stateInv (s : TrackerState) : Prop :=
  List.Pairwise (· < ·) (s.trackingDict.map Prod.fst) ∧
  ∀ id ∈ s.trackingDict.map Prod.fst, 1 ≤ id ∧ id ≤ s.nextObjectId

instance (s : TrackerState) : Decidable (stateInv s) := by
  unfold stateInv; infer_instance

/-- The matching decision the first loop records for one box, as a pure
function of the previous-frame snapshot. -/
def decision (prev : List Box) (box : Box) : Option ℕ :=
  if iouThresh ≤ roundTo1 (maxList (iouList box prev)) then
    some (argmaxList (iouList box prev))
  else none

section MaxLemmas

lemma le_foldl_max (xs : List ℚ) (a : ℚ) : a ≤ xs.foldl max a := by
  induction xs generalizing a with
  | nil => exact le_refl a
  | cons x xs ih => exact le_trans (le_max_left a x) (ih (max a x))

lemma mem_le_foldl_max {x : ℚ} {xs : List ℚ} (hx : x ∈ xs) (a : ℚ) :
    x ≤ xs.foldl max a := by
  induction xs generalizing a with
  | nil => cases hx
  | cons y ys ih =>
    rcases List.mem_cons.mp hx with rfl | hmem
    · exact le_trans (le_max_right a x) (le_foldl_max ys (max a x))
    · exact ih hmem (max a y)

lemma foldl_max_mem (xs : List ℚ) (a : ℚ) : xs.foldl max a ∈ a :: xs := by
  induction xs generalizing a with
  | nil => simp
  | cons y ys ih =>
    have h := ih (max a y)
    rcases max_choice a y with hc | hc <;>
      rcases List.mem_cons.mp h with hh | hh <;>
      simp [List.foldl_cons, hh, hc] at * <;> simp [hh, hc]

lemma maxList_mem {l : List ℚ} (h : l ≠ []) : maxList l ∈ l := by
  cases l with
  | nil => exact absurd rfl h
  | cons x xs => exact foldl_max_mem xs x

lemma le_maxList {x : ℚ} {l : List ℚ} (hx : x ∈ l) : x ≤ maxList l := by
  cases l with
  | nil => cases hx
  | cons y ys =>
    rcases List.mem_cons.mp hx with rfl | hmem
    · exact le_foldl_max ys x
    · exact mem_le_foldl_max hmem y

lemma argmaxList_lt_length {l : List ℚ} (h : l ≠ []) :
    argmaxList l < l.length := by
  refine List.findIdx_lt_length_of_exists ⟨maxList l, maxList_mem h, ?_⟩
  simp

lemma get_argmaxList {l : List ℚ} (h : argmaxList l < l.length) :
    l.get ⟨argmaxList l, h⟩ = maxList l := by
  have := List.findIdx_getElem (w := h)
  rw [List.get_eq_getElem]
  simpa using this

lemma argmaxList_le {l : List ℚ} {i : ℕ} (hi : i < l.length)
    (h : l.get ⟨i, hi⟩ = maxList l) : argmaxList l ≤ i := by
  by_contra hlt
  push_neg at hlt
  have := List.not_of_lt_findIdx hlt
  rw [List.get_eq_getElem] at h
  simp [h] at this

end MaxLemmas

section DictLemmas

lemma dictUpdate_of_not_mem {α β : Type} [DecidableEq α] {d : List (α × β)}
    {k : α} (v : β) (h : k ∉ d.map Prod.fst) :
    dictUpdate d k v = d ++ [(k, v)] := by
  have : d.any (fun p => decide (p.1 = k)) = false := by
    simp only [List.any_eq_false, decide_eq_true_eq]
    intro p hp hpk
    exact h (List.mem_map.mpr ⟨p, hp, hpk⟩)
  simp [dictUpdate, this]

lemma dictUpdate_length_ge {α β : Type} [DecidableEq α] (d : List (α × β))
    (k : α) (v : β) : d.length ≤ (dictUpdate d k v).length := by
  unfold dictUpdate
  split
  · simp
  · simp

lemma dictUpdate_ne_nil {α β : Type} [DecidableEq α] (d : List (α × β))
    (k : α) (v : β) : dictUpdate d k v ≠ [] := by
  unfold dictUpdate
  split
  · intro h
    rcases d with _ | ⟨p, ps⟩
    · simp at *
    · simp at h
  · simp

end DictLemmas

section InitLemmas

lemma initializeTracker_trackingDict {s : TrackerState} (b : Box)
    (hinv : stateInv s) :
    (initializeTracker b s).trackingDict =
      s.trackingDict ++ [(s.nextObjectId + 1, b)] := by
  have hfresh : s.nextObjectId + 1 ∉ s.trackingDict.map Prod.fst := by
    intro hmem
    have := (hinv.2 _ hmem).2
    omega
  simp [initializeTracker, dictUpdate_of_not_mem _ hfresh]

lemma initializeTracker_keys {s : TrackerState} (b : Box)
    (hinv : stateInv s) :
    (initializeTracker b s).trackingDict.map Prod.fst =
      s.trackingDict.map Prod.fst ++ [s.nextObjectId + 1] := by
  rw [initializeTracker_trackingDict b hinv]
  simp

lemma stateInv_initializeTracker {s : TrackerState} (b : Box)
    (hinv : stateInv s) : stateInv (initializeTracker b s) := by
  constructor
  · rw [initializeTracker_keys b hinv]
    refine List.pairwise_append.mpr ⟨hinv.1, List.pairwise_singleton _ _, ?_⟩
    intro x hx y hy
    rcases List.mem_singleton.mp hy with rfl
    have := (hinv.2 _ hx).2
    omega
  · rw [initializeTracker_keys b hinv]
    intro id hid
    rcases List.mem_append.mp hid with hmem | hmem
    · have := hinv.2 _ hmem
      simp only [initializeTracker]
      omega
    · rcases List.mem_singleton.mp hmem with rfl
      simp only [initializeTracker]
      omega

lemma initializeTracker_getLast {s : TrackerState} (b : Box)
    (hinv : stateInv s) :
    ((initializeTracker b s).trackingDict.map Prod.fst).getLast? =
      some (s.nextObjectId + 1) := by
  rw [initializeTracker_keys b hinv]
  simp

end InitLemmas

section LoopLemmas

lemma matchingLoop_eq_some {prev : List Box} (hprev : prev ≠ []) :
    ∀ (boxes : List Box) (md : List (Box × Option ℕ)),
      matchingLoop prev boxes md =
        some (boxes.foldl (fun acc box => dictUpdate acc box (decision prev box)) md)
  | [], md => rfl
  | box :: rest, md => by
    have hne : (iouList box prev).isEmpty = false := by
      simp [iouList, List.isEmpty_iff, hprev]
    rw [matchingLoop, hne]
    simp only [Bool.false_eq_true, if_false, List.foldl_cons]
    exact matchingLoop_eq_some hprev rest _

lemma foldl_dictUpdate_nodup (f : Box → Option ℕ) :
    ∀ (boxes : List Box) (md : List (Box × Option ℕ)),
      boxes.Nodup → (∀ x ∈ boxes, x ∉ md.map Prod.fst) →
      boxes.foldl (fun acc box => dictUpdate acc box (f box)) md =
        md ++ boxes.map (fun x => (x, f x))
  | [], md, _, _ => by simp
  | b :: rest, md, hnd, hfresh => by
    have hb : b ∉ md.map Prod.fst := hfresh b (List.mem_cons_self b rest)
    rw [List.foldl_cons, dictUpdate_of_not_mem _ hb]
    rw [foldl_dictUpdate_nodup f rest (md ++ [(b, f b)]) (List.Nodup.of_cons hnd) ?_]
    · simp
    · intro x hx
      simp only [List.map_append, List.mem_append]
      rintro (hmem | hmem)
      · exact hfresh x (List.mem_cons_of_mem b hx) hmem
      · simp only [List.map_cons, List.map_nil, List.mem_singleton] at hmem
        subst hmem
        exact (List.nodup_cons.mp hnd).1 hx

lemma tagLoop_ok :
    ∀ (entries : List (Box × Option ℕ)) (acc : List String) (s : TrackerState),
      (∀ e ∈ entries, ∀ i, e.2 = some i → i < s.trackingDict.length) →
      ∃ tags s', tagLoop entries acc s = some (tags, s') ∧
        tags.length = acc.length + entries.length
  | [], acc, s, _ => ⟨acc, s, rfl, by simp⟩
  | (k, v) :: rest, acc, s, h => by
    match v with
    | some i =>
      have hi : i < s.trackingDict.length :=
        h (k, some i) (List.mem_cons_self _ _) i rfl
      have hi' : i < (s.trackingDict.map Prod.fst).length := by simpa using hi
      have hid : (s.trackingDict.map Prod.fst).get? i =
          some ((s.trackingDict.map Prod.fst).get ⟨i, hi'⟩) := List.get?_eq_get hi'
      rw [tagLoop, hid]
      obtain ⟨tags, s', hrun, hlen⟩ :=
        tagLoop_ok rest
          (acc ++ [toString ((s.trackingDict.map Prod.fst).get ⟨i, hi'⟩)]) s
          (fun e he j hj => h e (List.mem_cons_of_mem _ he) j hj)
      exact ⟨tags, s', hrun, by simp [hlen]; omega⟩
    | none =>
      have hne : (initializeTracker k s).trackingDict ≠ [] :=
        dictUpdate_ne_nil _ _ _
      have hne' : ((initializeTracker k s).trackingDict.map Prod.fst) ≠ [] := by
        simpa using hne
      obtain ⟨id, hid⟩ := Option.isSome_iff_exists.mp
        (List.getLast?_isSome.mpr hne')
      rw [tagLoop, hid]
      obtain ⟨tags, s', hrun, hlen⟩ :=
        tagLoop_ok rest (acc ++ [toString id]) (initializeTracker k s)
          (fun e he j hj => by
            have := h e (List.mem_cons_of_mem _ he) j hj
            calc j < s.trackingDict.length := this
              _ ≤ (initializeTracker k s).trackingDict.length :=
                dictUpdate_length_ge _ _ _)
      exact ⟨tags, s', hrun, by simp [hlen]; omega⟩

end LoopLemmas

section DedupLemmas

lemma dedupTags_foldl_length (l : List String) :
    ∀ acc : List String,
      (l.foldl (fun acc x => if x ∈ acc then acc ++ [""] else acc ++ [x]) acc).length =
        acc.length + l.length := by
  induction l with
  | nil => intro acc; simp
  | cons x xs ih =>
    intro acc
    rw [List.foldl_cons]
    by_cases hx : x ∈ acc <;> simp [hx, ih] <;> omega

lemma dedupTags_length (l : List String) : (dedupTags l).length = l.length := by
  simpa using dedupTags_foldl_length l []

lemma dedupTags_foldl_replicate (x : String) (n : ℕ) :
    ∀ acc : List String, x ∈ acc →
      (List.replicate n x).foldl
        (fun acc y => if y ∈ acc then acc ++ [""] else acc ++ [y]) acc =
        acc ++ List.replicate n "" := by
  induction n with
  | zero => intro acc _; simp
  | succ m ih =>
    intro acc hx
    rw [List.replicate_succ, List.foldl_cons, if_pos hx]
    rw [ih (acc ++ [""]) (List.mem_append_left _ hx)]
    simp [List.replicate_succ, List.append_assoc]

lemma dedupTags_replicate (x : String) (n : ℕ) :
    dedupTags (x :: List.replicate n x) = x :: List.replicate n "" := by
  unfold dedupTags
  rw [List.foldl_cons]
  simp only [List.not_mem_nil, if_false, List.nil_append]
  rw [dedupTags_foldl_replicate x n [x] (List.mem_singleton_self x)]
  rfl

end DedupLemmas

section InvLemmas

lemma decision_some_lt {prev : List Box} {box : Box} {i : ℕ}
    (hprev : prev ≠ []) (h : decision prev box = some i) : i < prev.length := by
  unfold decision at h
  split at h
  · have hne : iouList box prev ≠ [] := by simp [iouList, hprev]
    have := argmaxList_lt_length hne
    simp only [Option.some.injEq] at h
    subst h
    simpa [iouList] using this
  · cases h

lemma evictPass_keys_sublist (env : ℕ → Option Box) (d : List (ℕ × Box)) :
    ((evictPass env d).map Prod.fst).Sublist (d.map Prod.fst) := by
  induction d with
  | nil => simp [evictPass]
  | cons p ps ih =>
    simp only [evictPass, List.filterMap_cons] at *
    cases henv : env p.1 with
    | none => simp only [Option.map_none']; exact ih.trans (List.sublist_cons_self _ _)
    | some nb =>
      simp only [Option.map_some', List.map_cons]
      exact ih.cons₂ p.1

lemma stateInv_evict {s1 : TrackerState} (env : ℕ → Option Box)
    (hinv : stateInv s1) :
    stateInv { s1 with trackingDict := evictPass env s1.trackingDict } := by
  refine ⟨hinv.1.sublist (evictPass_keys_sublist env s1.trackingDict), ?_⟩
  intro id hid
  exact hinv.2 id ((evictPass_keys_sublist env s1.trackingDict).mem hid)

lemma tagLoop_inv :
    ∀ (entries : List (Box × Option ℕ)) (acc : List String) (s : TrackerState)
      (tags : List String) (s' : TrackerState),
      stateInv s → tagLoop entries acc s = some (tags, s') →
      stateInv s' ∧ s.nextObjectId ≤ s'.nextObjectId ∧
        (∀ id ∈ s'.trackingDict.map Prod.fst,
          id ∈ s.trackingDict.map Prod.fst ∨ s.nextObjectId < id)
  | [], acc, s, tags, s', hinv, hrun => by
    rw [tagLoop] at hrun
    simp only [Option.some.injEq, Prod.mk.injEq] at hrun
    rcases hrun with ⟨-, rfl⟩
    exact ⟨hinv, le_refl _, fun id hid => Or.inl hid⟩
  | (k, v) :: rest, acc, s, tags, s', hinv, hrun => by
    match v with
    | some i =>
      rw [tagLoop] at hrun
      cases hget : (s.trackingDict.map Prod.fst).get? i with
      | none => rw [hget] at hrun; cases hrun
      | some id =>
        rw [hget] at hrun
        exact tagLoop_inv rest _ s tags s' hinv hrun
    | none =>
      rw [tagLoop] at hrun
      cases hget : ((initializeTracker k s).trackingDict.map Prod.fst).getLast? with
      | none => rw [hget] at hrun; cases hrun
      | some id =>
        rw [hget] at hrun
        have hinv1 := stateInv_initializeTracker k hinv
        obtain ⟨h1, h2, h3⟩ := tagLoop_inv rest _ _ tags s' hinv1 hrun
        have hnext : (initializeTracker k s).nextObjectId = s.nextObjectId + 1 := rfl
        refine ⟨h1, by omega, ?_⟩
        intro j hj
        rcases h3 j hj with hmem | hgt
        · rw [initializeTracker_keys k hinv] at hmem
          rcases List.mem_append.mp hmem with hmem' | hmem'
          · exact Or.inl hmem'
          · rcases List.mem_singleton.mp hmem' with rfl
            exact Or.inr (by omega)
        · exact Or.inr (by omega)

lemma ifNewBbox_inv {bboxes : List Box} {s : TrackerState}
    {tags : List String} {s' : TrackerState}
    (hinv : stateInv s) (hrun : ifNewBboxAddTrack bboxes s = some (tags, s')) :
    stateInv s' ∧ s.nextObjectId ≤ s'.nextObjectId ∧
      (∀ id ∈ s'.trackingDict.map Prod.fst,
        id ∈ s.trackingDict.map Prod.fst ∨ s.nextObjectId < id) := by
  rw [ifNewBboxAddTrack] at hrun
  cases hml : matchingLoop (s.trackingDict.map Prod.snd) bboxes [] with
  | none => rw [hml] at hrun; cases hrun
  | some md =>
    rw [hml] at hrun
    dsimp only at hrun
    cases htl : tagLoop md [] s with
    | none => rw [htl] at hrun; cases hrun
    | some r =>
      rw [htl] at hrun
      dsimp only at hrun
      obtain ⟨trackId, s1⟩ := r
      simp only [Option.some.injEq, Prod.mk.injEq] at hrun
      rcases hrun with ⟨-, rfl⟩
      exact tagLoop_inv md [] s trackId _ hinv htl

lemma foldInit_inv :
    ∀ (boxes : List Box) (s : TrackerState), stateInv s →
      stateInv (boxes.foldl (fun st b => initializeTracker b st) s) ∧
      s.nextObjectId ≤
        (boxes.foldl (fun st b => initializeTracker b st) s).nextObjectId ∧
      (∀ id ∈ (boxes.foldl (fun st b => initializeTracker b st) s).trackingDict.map
          Prod.fst,
        id ∈ s.trackingDict.map Prod.fst ∨ s.nextObjectId < id)
  | [], s, hinv => ⟨hinv, le_refl _, fun id hid => Or.inl hid⟩
  | b :: rest, s, hinv => by
    rw [List.foldl_cons]
    have hinv1 := stateInv_initializeTracker b hinv
    obtain ⟨h1, h2, h3⟩ := foldInit_inv rest (initializeTracker b s) hinv1
    have hnext : (initializeTracker b s).nextObjectId = s.nextObjectId + 1 := rfl
    refine ⟨h1, by omega, ?_⟩
    intro j hj
    rcases h3 j hj with hmem | hgt
    · rw [initializeTracker_keys b hinv] at hmem
      rcases List.mem_append.mp hmem with hmem' | hmem'
      · exact Or.inl hmem'
      · rcases List.mem_singleton.mp hmem' with rfl
        exact Or.inr (by omega)
    · exact Or.inr (by omega)

lemma runStep_inv {env : ℕ → Option Box} {frameH frameW : ℚ}
    {inBoxes : List Box} {s : TrackerState} {tags : List String}
    {s' : TrackerState} (hinv : stateInv s)
    (hrun : runStep env frameH frameW inBoxes s = some (tags, s')) :
    stateInv s' ∧ s.nextObjectId ≤ s'.nextObjectId ∧
      (∀ id ∈ s'.trackingDict.map Prod.fst,
        id ∈ s.trackingDict.map Prod.fst ∨ s.nextObjectId < id) := by
  rw [runStep] at hrun
  by_cases hff : s.firstFrameOrNot
  · simp only [hff, if_true] at hrun
    simp only [Option.some.injEq, Prod.mk.injEq] at hrun
    rcases hrun with ⟨-, rfl⟩
    set sf := (inBoxes.map (formatBox frameH frameW)).foldl
      (fun st b => initializeTracker b st) s with hsf
    obtain ⟨h1, h2, h3⟩ := foldInit_inv (inBoxes.map (formatBox frameH frameW)) s hinv
    have h1' : stateInv ({ sf with firstFrameOrNot := false }) := h1
    refine ⟨?_, h2, ?_⟩
    · exact stateInv_evict env h1'
    · intro j hj
      have hj' : j ∈ ({ sf with firstFrameOrNot := false } :
          TrackerState).trackingDict.map Prod.fst :=
        (evictPass_keys_sublist env _).mem hj
      exact h3 j hj'
  · simp only [Bool.not_eq_true] at hff
    simp only [hff, Bool.false_eq_true, if_false] at hrun
    cases hib : ifNewBboxAddTrack (inBoxes.map (formatBox frameH frameW)) s with
    | none => rw [hib] at hrun; cases hrun
    | some r =>
      rw [hib] at hrun
      obtain ⟨tags1, s1⟩ := r
      simp only [Option.some.injEq, Prod.mk.injEq] at hrun
      rcases hrun with ⟨-, rfl⟩
      obtain ⟨h1, h2, h3⟩ := ifNewBbox_inv hinv hib
      refine ⟨stateInv_evict env h1, h2, ?_⟩
      intro j hj
      exact h3 j ((evictPass_keys_sublist env _).mem hj)

end InvLemmas

attribute [local semireducible] Rat.mul Rat.inv Rat.add Rat.sub

section GlueLemmas

lemma dictUpdate_nil {α β : Type} [DecidableEq α] (k : α) (v : β) :
    dictUpdate ([] : List (α × β)) k v = [(k, v)] := by
  simp [dictUpdate]

lemma matchingLoop_nodup {prev : List Box} (hprev : prev ≠ [])
    (boxes : List Box) (hnd : boxes.Nodup) :
    matchingLoop prev boxes [] =
      some (boxes.map (fun x => (x, decision prev x))) := by
  rw [matchingLoop_eq_some hprev boxes []]
  rw [foldl_dictUpdate_nodup (decision prev) boxes [] hnd (by simp)]
  simp

lemma dedupTags_singleton (x : String) : dedupTags [x] = [x] := by
  simp [dedupTags]

lemma ifNewBbox_singleton_matched {b : Box} {s : TrackerState} {i : ℕ}
    (hne : s.trackingDict ≠ [])
    (hdec : decision (s.trackingDict.map Prod.snd) b = some i) :
    ∃ id, (s.trackingDict.map Prod.fst).get? i = some id ∧
      ifNewBboxAddTrack [b] s = some ([toString id], s) := by
  have hprev : s.trackingDict.map Prod.snd ≠ [] := by simpa using hne
  have hml := matchingLoop_nodup hprev [b] (List.nodup_singleton b)
  have hi : i < (s.trackingDict.map Prod.fst).length := by
    have := decision_some_lt hprev hdec
    simpa using this
  have hget : (s.trackingDict.map Prod.fst).get? i =
      some ((s.trackingDict.map Prod.fst).get ⟨i, hi⟩) := List.get?_eq_get hi
  refine ⟨(s.trackingDict.map Prod.fst).get ⟨i, hi⟩, hget, ?_⟩
  have htl : tagLoop [(b, some i)] [] s =
      some ([toString ((s.trackingDict.map Prod.fst).get ⟨i, hi⟩)], s) := by
    rw [tagLoop, hget]
    dsimp only
    rw [tagLoop]
    simp
  rw [ifNewBboxAddTrack, hml]
  dsimp only
  rw [List.map_singleton, hdec, htl]
  dsimp only
  rw [dedupTags_singleton]

lemma ifNewBbox_singleton_unmatched {b : Box} {s : TrackerState}
    (hinv : stateInv s) (hne : s.trackingDict ≠ [])
    (hdec : decision (s.trackingDict.map Prod.snd) b = none) :
    ifNewBboxAddTrack [b] s =
      some ([toString (s.nextObjectId + 1)], initializeTracker b s) := by
  have hprev : s.trackingDict.map Prod.snd ≠ [] := by simpa using hne
  have hml := matchingLoop_nodup hprev [b] (List.nodup_singleton b)
  have htl : tagLoop [(b, none)] [] s =
      some ([toString (s.nextObjectId + 1)], initializeTracker b s) := by
    rw [tagLoop, initializeTracker_getLast b hinv]
    dsimp only
    rw [tagLoop]
    simp
  rw [ifNewBboxAddTrack, hml]
  dsimp only
  rw [List.map_singleton, hdec, htl]
  dsimp only
  rw [dedupTags_singleton]

lemma tagLoop_all_same {k : ℕ} :
    ∀ (entries : List (Box × Option ℕ)) (acc : List String) (s : TrackerState),
      (∀ e ∈ entries, ∃ i, e.2 = some i ∧
        (s.trackingDict.map Prod.fst).get? i = some k) →
      tagLoop entries acc s =
        some (acc ++ entries.map (fun _ => toString k), s)
  | [], acc, s, _ => by simp [tagLoop]
  | (b, v) :: rest, acc, s, h => by
    obtain ⟨i, hv, hget⟩ := h (b, v) (List.mem_cons_self _ _)
    simp only at hv
    subst hv
    rw [tagLoop, hget]
    dsimp only
    rw [tagLoop_all_same rest _ s (fun e he => h e (List.mem_cons_of_mem _ he))]
    simp

lemma dedup_foldl_extends :
    ∀ (l acc : List String), ∃ t,
      l.foldl (fun acc x => if x ∈ acc then acc ++ [""] else acc ++ [x]) acc =
        acc ++ t
  | [], acc => ⟨[], by simp⟩
  | x :: xs, acc => by
    rw [List.foldl_cons]
    by_cases hx : x ∈ acc
    · obtain ⟨t, ht⟩ := dedup_foldl_extends xs (acc ++ [""])
      exact ⟨[""] ++ t, by rw [if_pos hx, ht, List.append_assoc]⟩
    · obtain ⟨t, ht⟩ := dedup_foldl_extends xs (acc ++ [x])
      exact ⟨[x] ++ t, by rw [if_neg hx, ht, List.append_assoc]⟩

lemma mem_foldl_dedup {y : String} (hy : y ≠ "") :
    ∀ (l acc : List String),
      (y ∈ l.foldl (fun acc x => if x ∈ acc then acc ++ [""] else acc ++ [x]) acc ↔
        y ∈ acc ∨ y ∈ l)
  | [], acc => by simp
  | x :: xs, acc => by
    rw [List.foldl_cons]
    by_cases hx : x ∈ acc
    · rw [if_pos hx, mem_foldl_dedup hy xs (acc ++ [""])]
      simp only [List.mem_append, List.mem_cons, List.not_mem_nil, or_false]
      constructor
      · rintro (h | h)
        · rcases h with h | h
          · exact Or.inl h
          · exact absurd h hy
        · exact Or.inr (Or.inr h)
      · rintro (h | h)
        · exact Or.inl (Or.inl h)
        · rcases h with rfl | h
          · exact Or.inl (Or.inl hx)
          · exact Or.inr h
    · rw [if_neg hx, mem_foldl_dedup hy xs (acc ++ [x])]
      simp only [List.mem_append, List.mem_cons, List.not_mem_nil, or_false]
      tauto

lemma dedupTags_mem {y : String} (hy : y ≠ "") (l : List String) :
    y ∈ dedupTags l ↔ y ∈ l := by
  unfold dedupTags
  rw [mem_foldl_dedup hy l []]
  simp

lemma get?_append_cons {α : Type} (A : List α) (z : α) (t : List α) :
    (A ++ z :: t).get? A.length = some z := by
  rw [List.get?_eq_getElem?, List.getElem?_append_right (le_refl A.length)]
  simp

lemma dedupTags_position (l₁ : List String) (x : String) (l₂ : List String)
    (hx : x ≠ "") :
    (dedupTags (l₁ ++ x :: l₂)).get? l₁.length =
      some (if x ∈ l₁ then "" else x) := by
  unfold dedupTags
  rw [List.foldl_append, List.foldl_cons]
  rw [show List.foldl (fun acc x => if x ∈ acc then acc ++ [""] else acc ++ [x])
        [] l₁ = dedupTags l₁ from rfl]
  have hlen := dedupTags_length l₁
  by_cases hmem : x ∈ dedupTags l₁
  · rw [if_pos hmem, if_pos ((dedupTags_mem hx l₁).mp hmem)]
    obtain ⟨t, ht⟩ := dedup_foldl_extends l₂ (dedupTags l₁ ++ [""])
    rw [ht, List.append_assoc, List.singleton_append, ← hlen]
    exact get?_append_cons (dedupTags l₁) "" t
  · rw [if_neg hmem, if_neg (fun hc => hmem ((dedupTags_mem hx l₁).mpr hc))]
    obtain ⟨t, ht⟩ := dedup_foldl_extends l₂ (dedupTags l₁ ++ [x])
    rw [ht, List.append_assoc, List.singleton_append, ← hlen]
    exact get?_append_cons (dedupTags l₁) x t

lemma toDigitsCore_ne_nil (b : ℕ) :
    ∀ (fuel n : ℕ) (ds : List Char), ds ≠ [] →
      Nat.toDigitsCore b fuel n ds ≠ []
  | 0, _, _, h => h
  | fuel + 1, n, ds, h => by
    rw [Nat.toDigitsCore]
    split
    · exact List.cons_ne_nil _ _
    · exact toDigitsCore_ne_nil b fuel (n / b) _ (List.cons_ne_nil _ _)

lemma natToString_ne_empty (k : ℕ) : toString k ≠ "" := by
  show Nat.repr k ≠ ""
  rw [Nat.repr]
  have h : Nat.toDigits 10 k ≠ [] := by
    rw [Nat.toDigits]
    rw [Nat.toDigitsCore]
    split
    · exact List.cons_ne_nil _ _
    · exact toDigitsCore_ne_nil 10 k (k / 10) _ (List.cons_ne_nil _ _)
  intro hc
  apply h
  have := congrArg String.data hc
  simpa [List.asString] using this

end GlueLemmas

section SampleValues

/-- A normalized detection box covering the whole frame. -/
def boxUnit : Box := ⟨0, 0, 1, 1⟩

/-- The pixel version of `boxUnit` on a 10×10 frame. -/
def boxPix : Box := ⟨0, 0, 10, 10⟩

/-- A pixel box overlapping `boxPix` with IoU 0.9. -/
def boxNear : Box := ⟨0, 0, 10, 9⟩

/-- A RUNNING-state tracker with one live track, id 1 (as reached by one
first-frame call with one detection and a successful tracker update). -/
def sOne : TrackerState := ⟨false, 1, [(1, boxPix)]⟩

/-- An environment where every tracker update fails this frame. -/
def envNone : ℕ → Option Box := fun _ => none

/-- An environment where every tracker update succeeds at `boxPix`. -/
def envKeep : ℕ → Option Box := fun _ => some boxPix

/-- An environment where only the tracker of id 1 succeeds this frame. -/
def envFirstOnly : ℕ → Option Box := fun i => if i = 1 then some boxPix else none

/-- A RUNNING-state tracker with two live tracks that store the same box (as
reached by one first-frame call with two identical detections). -/
def sTwo : TrackerState := ⟨false, 2, [(1, boxPix), (2, boxPix)]⟩

end SampleValues

section Claims

/-- C1 counterexample: in the RUNNING state, two input detections with
identical coordinates collapse to a single `matching_dict` key, so `run`
returns one tag for two detections — the output length is not the input
length. -/
theorem duplicate_boxes_shrink_output_counterexample :
    runStep envKeep 10 10 [boxUnit, boxUnit] sOne = some (["1"], sOne) ∧
    (["1"] : List String).length ≠ [boxUnit, boxUnit].length := by
  exact ⟨by decide, by decide⟩

/-- C1 (amended): in the RUNNING state, when the registry is non-empty and the
formatted detection boxes are pairwise distinct, `run` succeeds and returns one
string tag per input detection, order-aligned with the input. -/
theorem running_frame_output_length (env : ℕ → Option Box) (frameH frameW : ℚ)
    (inBoxes : List Box) (s : TrackerState) (hff : s.firstFrameOrNot = false)
    (hne : s.trackingDict ≠ [])
    (hnd : (inBoxes.map (formatBox frameH frameW)).Nodup) :
    ∃ tags s', runStep env frameH frameW inBoxes s = some (tags, s') ∧
      tags.length = inBoxes.length := by
  have hprev : s.trackingDict.map Prod.snd ≠ [] := by simpa using hne
  have hml := matchingLoop_nodup hprev (inBoxes.map (formatBox frameH frameW)) hnd
  have hbound : ∀ e ∈ (inBoxes.map (formatBox frameH frameW)).map
      (fun x => (x, decision (s.trackingDict.map Prod.snd) x)),
      ∀ i, e.2 = some i → i < s.trackingDict.length := by
    intro e he i hi
    obtain ⟨x, hx, rfl⟩ := List.mem_map.mp he
    simp only at hi
    have := decision_some_lt hprev hi
    simpa using this
  obtain ⟨tags0, s1, htl, hlen⟩ := tagLoop_ok _ [] s hbound
  have hib : ifNewBboxAddTrack (inBoxes.map (formatBox frameH frameW)) s =
      some (dedupTags tags0, s1) := by
    rw [ifNewBboxAddTrack, hml]
    dsimp only
    rw [htl]
  refine ⟨dedupTags tags0,
    { s1 with trackingDict := evictPass env s1.trackingDict }, ?_, ?_⟩
  · rw [runStep]
    simp only [hff, Bool.false_eq_true, if_false]
    rw [hib]
  · rw [dedupTags_length]
    simp only [List.length_nil, List.length_map, Nat.zero_add] at hlen
    exact hlen

/-- C1 witness: the amended statement applied at a concrete RUNNING state with
one registered track and one detection. -/
theorem running_frame_output_length_witness :
    ∃ tags s', runStep envKeep 10 10 [boxUnit] sOne = some (tags, s') ∧
      tags.length = [boxUnit].length :=
  running_frame_output_length envKeep 10 10 [boxUnit] sOne (by decide)
    (by decide) (by decide)

/-- C2 counterexample: an empty detection list yields empty output, but the
unconditional per-frame update pass still runs, and a tracker reporting
failure is evicted — the registry id set changes. -/
theorem empty_input_eviction_counterexample :
    runStep envNone 10 10 [] sOne =
      some ([], (⟨false, 1, []⟩ : TrackerState)) ∧
    ((⟨false, 1, []⟩ : TrackerState)).trackingDict.map Prod.fst ≠
      sOne.trackingDict.map Prod.fst := by
  exact ⟨by decide, by decide⟩

/-- C2 (amended): in every state (with the first-frame flag implying an empty
registry, as holds for every reachable state), an empty detection list yields
empty output and creates no track — `next_object_id` is unchanged and the
registry keys afterwards are a sublist of the keys before; tracks can still be
destroyed by the unconditional update/eviction pass. -/
theorem empty_input_empty_output_no_creation (env : ℕ → Option Box)
    (frameH frameW : ℚ) (s : TrackerState)
    (hff : s.firstFrameOrNot = true → s.trackingDict = []) :
    ∃ s', runStep env frameH frameW [] s = some ([], s') ∧
      s'.nextObjectId = s.nextObjectId ∧
      (s'.trackingDict.map Prod.fst).Sublist (s.trackingDict.map Prod.fst) := by
  by_cases hb : s.firstFrameOrNot
  · have hdict := hff hb
    rw [runStep]
    simp only [hb, if_true, List.map_nil, List.foldl_nil, hdict, evictPass,
      List.filterMap_nil]
    exact ⟨_, rfl, rfl, List.nil_sublist _⟩
  · simp only [Bool.not_eq_true] at hb
    have hib : ifNewBboxAddTrack [] s = some ([], s) := by
      rw [ifNewBboxAddTrack, matchingLoop]
      dsimp only
      rw [tagLoop]
      rfl
    rw [runStep]
    simp only [hb, Bool.false_eq_true, if_false, List.map_nil]
    rw [hib]
    exact ⟨_, rfl, rfl, evictPass_keys_sublist env s.trackingDict⟩

/-- C2 witness: the amended statement applied at the concrete RUNNING state
with one registered track, where the tracker succeeds. -/
theorem empty_input_empty_output_no_creation_witness :
    ∃ s', runStep envKeep 10 10 [] sOne = some ([], s') ∧
      s'.nextObjectId = sOne.nextObjectId ∧
      (s'.trackingDict.map Prod.fst).Sublist (sOne.trackingDict.map Prod.fst) :=
  empty_input_empty_output_no_creation envKeep 10 10 sOne (by decide)

/-- C3: in the RUNNING state with a non-empty registry, a detection box is
assigned to an existing track if and only if the maximum IoU against the
previous-frame tracked boxes, rounded to one decimal place, is at least the
threshold 0.1; when assigned, no tracker is created, the state is unchanged by
the association, and the assigned index achieves the maximum IoU; otherwise a
brand-new track is created for the box. -/
theorem association_iff_rounded_threshold (b : Box) (s : TrackerState)
    (hinv : stateInv s) (hne : s.trackingDict ≠ []) :
    (iouThresh ≤ roundTo1 (maxList (iouList b (s.trackingDict.map Prod.snd))) →
      ∃ id, (s.trackingDict.map Prod.fst).get?
          (argmaxList (iouList b (s.trackingDict.map Prod.snd))) = some id ∧
        ifNewBboxAddTrack [b] s = some ([toString id], s) ∧
        (iouList b (s.trackingDict.map Prod.snd)).get?
            (argmaxList (iouList b (s.trackingDict.map Prod.snd))) =
          some (maxList (iouList b (s.trackingDict.map Prod.snd)))) ∧
    (¬ iouThresh ≤ roundTo1 (maxList (iouList b (s.trackingDict.map Prod.snd))) →
      ifNewBboxAddTrack [b] s =
        some ([toString (s.nextObjectId + 1)], initializeTracker b s)) := by
  have hprev : s.trackingDict.map Prod.snd ≠ [] := by simpa using hne
  have hne2 : iouList b (s.trackingDict.map Prod.snd) ≠ [] := by
    simp only [iouList, ne_eq, List.map_eq_nil_iff]
    exact hne
  constructor
  · intro hth
    have hdec : decision (s.trackingDict.map Prod.snd) b =
        some (argmaxList (iouList b (s.trackingDict.map Prod.snd))) := by
      simp [decision, hth]
    obtain ⟨id, hget, hrun⟩ := ifNewBbox_singleton_matched hne hdec
    have hlt := argmaxList_lt_length hne2
    refine ⟨id, hget, hrun, ?_⟩
    rw [List.get?_eq_get hlt, get_argmaxList hlt]
  · intro hth
    have hdec : decision (s.trackingDict.map Prod.snd) b = none := by
      simp [decision, hth]
    exact ifNewBbox_singleton_unmatched hinv hne hdec

/-- C3 witness: the matched direction applied at a concrete RUNNING state with
one registered track and a detection with IoU 1 against it. -/
theorem association_iff_rounded_threshold_witness :
    iouThresh ≤ roundTo1 (maxList (iouList boxPix (sOne.trackingDict.map Prod.snd))) ∧
    ∃ id, (sOne.trackingDict.map Prod.fst).get?
        (argmaxList (iouList boxPix (sOne.trackingDict.map Prod.snd))) = some id ∧
      ifNewBboxAddTrack [boxPix] sOne = some ([toString id], sOne) ∧
      (iouList boxPix (sOne.trackingDict.map Prod.snd)).get?
          (argmaxList (iouList boxPix (sOne.trackingDict.map Prod.snd))) =
        some (maxList (iouList boxPix (sOne.trackingDict.map Prod.snd))) :=
  ⟨by decide,
    (association_iff_rounded_threshold boxPix sOne (by decide) (by decide)).1
      (by decide)⟩

/-- C4: in the RUNNING state with an empty registry (reachable by a
first-frame call with no detections), a non-empty detection list makes `run`
raise instead of creating new tracks: the IoU list over zero candidates is
empty and Python `max` of an empty sequence raises `ValueError`, modelled by
`none`. -/
theorem running_empty_registry_raises :
    runStep envNone 10 10 [] initState =
      some ([], (⟨false, 0, []⟩ : TrackerState)) ∧
    runStep envNone 10 10 [boxUnit] (⟨false, 0, []⟩ : TrackerState) =
      none := by
  exact ⟨by decide, by decide⟩

/-- C5: duplicate tags are blanked after their first occurrence: the tag at
any position of the deduplicated output is the empty string exactly when the
same tag occurs earlier in the raw tag list; in particular, when every
detection of a RUNNING frame with pairwise distinct boxes matches the same
existing track id, the output labels the first detection with the id and
blanks all the others, preserving the list length. -/
theorem duplicate_matches_blank_after_first :
    (∀ (l₁ : List String) (x : String) (l₂ : List String), x ≠ "" →
      (dedupTags (l₁ ++ x :: l₂)).get? l₁.length =
        some (if x ∈ l₁ then "" else x)) ∧
    (∀ (b : Box) (bs : List Box) (s : TrackerState) (k : ℕ),
      s.trackingDict ≠ [] → (b :: bs).Nodup →
      (∀ x ∈ b :: bs, ∃ i,
        decision (s.trackingDict.map Prod.snd) x = some i ∧
        (s.trackingDict.map Prod.fst).get? i = some k) →
      ifNewBboxAddTrack (b :: bs) s =
        some (toString k :: List.replicate bs.length "", s)) := by
  constructor
  · exact fun l₁ x l₂ hx => dedupTags_position l₁ x l₂ hx
  · intro b bs s k hne hnd hall
    have hprev : s.trackingDict.map Prod.snd ≠ [] := by simpa using hne
    have hml := matchingLoop_nodup hprev (b :: bs) hnd
    have htl := tagLoop_all_same (k := k)
      ((b :: bs).map fun x => (x, decision (s.trackingDict.map Prod.snd) x)) [] s
      (by
        intro e he
        obtain ⟨x, hx, rfl⟩ := List.mem_map.mp he
        obtain ⟨i, hdec, hget⟩ := hall x hx
        exact ⟨i, hdec, hget⟩)
    rw [ifNewBboxAddTrack, hml]
    dsimp only
    rw [htl]
    dsimp only
    rw [List.nil_append, List.map_map]
    have hconst : ((b :: bs).map ((fun _ => toString k) ∘
        fun x => (x, decision (s.trackingDict.map Prod.snd) x))) =
        toString k :: List.replicate bs.length (toString k) := by
      rw [List.map_cons]
      congr 1
      exact List.map_const' bs (toString k)
    rw [hconst, dedupTags_replicate]

/-- C5 witness: two distinct detections both matching track 1 of a concrete
RUNNING state produce the tags `["1", ""]`, of length 2. -/
theorem duplicate_matches_blank_after_first_witness :
    ifNewBboxAddTrack [boxPix, boxNear] sOne = some (["1", ""], sOne) := by
  have h := duplicate_matches_blank_after_first.2 boxPix [boxNear] sOne 1
    (by decide) (by decide)
    (by
      intro x hx
      rcases List.mem_cons.mp hx with rfl | hx'
      · exact ⟨0, by decide, by decide⟩
      · rcases List.mem_singleton.mp hx' with rfl
        exact ⟨0, by decide, by decide⟩)
  rw [h]
  decide

/-- C6: in the RUNNING state, when a detection passes the rounded IoU
threshold, it is assigned to the track at the first registry position
achieving the maximum IoU, and under the registry invariant (keys strictly
increasing in iteration order) that track's id is the least id among all
positions achieving the maximum. -/
theorem tie_break_first_in_registry (b : Box) (s : TrackerState)
    (hinv : stateInv s) (hne : s.trackingDict ≠ [])
    (hth : iouThresh ≤ roundTo1 (maxList (iouList b (s.trackingDict.map Prod.snd))))
    (_htie : ∃ i j, i ≠ j ∧
      (iouList b (s.trackingDict.map Prod.snd)).get? i =
        some (maxList (iouList b (s.trackingDict.map Prod.snd))) ∧
      (iouList b (s.trackingDict.map Prod.snd)).get? j =
        some (maxList (iouList b (s.trackingDict.map Prod.snd)))) :
    ∃ id, (s.trackingDict.map Prod.fst).get?
        (argmaxList (iouList b (s.trackingDict.map Prod.snd))) = some id ∧
      ifNewBboxAddTrack [b] s = some ([toString id], s) ∧
      ∀ i q, (iouList b (s.trackingDict.map Prod.snd)).get? i =
          some (maxList (iouList b (s.trackingDict.map Prod.snd))) →
        (s.trackingDict.map Prod.fst).get? i = some q → id ≤ q := by
  have hdec : decision (s.trackingDict.map Prod.snd) b =
      some (argmaxList (iouList b (s.trackingDict.map Prod.snd))) := by
    simp [decision, hth]
  obtain ⟨id, hget, hrun⟩ := ifNewBbox_singleton_matched hne hdec
  refine ⟨id, hget, hrun, ?_⟩
  intro i q hmax hq
  obtain ⟨hi_lt, hi_get⟩ := List.get?_eq_some.mp hmax
  have hle : argmaxList (iouList b (s.trackingDict.map Prod.snd)) ≤ i :=
    argmaxList_le hi_lt hi_get
  obtain ⟨ha_lt, ha_get⟩ := List.get?_eq_some.mp hget
  obtain ⟨hq_lt, hq_get⟩ := List.get?_eq_some.mp hq
  rcases Nat.lt_or_ge (argmaxList (iouList b (s.trackingDict.map Prod.snd))) i
    with hlt | hge
  · have hpw := List.pairwise_iff_get.mp hinv.1
    have := hpw ⟨argmaxList (iouList b (s.trackingDict.map Prod.snd)), ha_lt⟩
      ⟨i, hq_lt⟩ hlt
    rw [ha_get, hq_get] at this
    exact le_of_lt this
  · have heq : argmaxList (iouList b (s.trackingDict.map Prod.snd)) = i :=
      le_antisymm hle hge
    subst heq
    rw [ha_get] at hq_get
    exact le_of_eq hq_get

/-- C6 witness: a RUNNING state with two tracks storing the same box, so both
attain the maximum IoU 1 against the detection; the assignment goes to id 1,
the least of the two. -/
theorem tie_break_first_in_registry_witness :
    ∃ id, (sTwo.trackingDict.map Prod.fst).get?
        (argmaxList (iouList boxPix (sTwo.trackingDict.map Prod.snd))) = some id ∧
      ifNewBboxAddTrack [boxPix] sTwo = some ([toString id], sTwo) ∧
      ∀ i q, (iouList boxPix (sTwo.trackingDict.map Prod.snd)).get? i =
          some (maxList (iouList boxPix (sTwo.trackingDict.map Prod.snd))) →
        (sTwo.trackingDict.map Prod.fst).get? i = some q → id ≤ q :=
  tie_break_first_in_registry boxPix sTwo (by decide) (by decide) (by decide)
    ⟨0, 1, by decide, by decide, by decide⟩

/-- C7: in the RUNNING state, the tags are computed by the association engine
from the pre-update registry snapshot, and the unconditional update/eviction
pass is applied afterwards to the association's resulting registry; in
particular the returned tags do not depend on this frame's tracker update
results. -/
theorem association_uses_pre_update_snapshot (env : ℕ → Option Box)
    (frameH frameW : ℚ) (inBoxes : List Box) (s : TrackerState)
    (hff : s.firstFrameOrNot = false) :
    runStep env frameH frameW inBoxes s =
      (match ifNewBboxAddTrack (inBoxes.map (formatBox frameH frameW)) s with
       | none => none
       | some (tags, s1) =>
         some (tags, { s1 with trackingDict := evictPass env s1.trackingDict })) ∧
    ∀ env' : ℕ → Option Box,
      Option.map Prod.fst (runStep env' frameH frameW inBoxes s) =
        Option.map Prod.fst (runStep env frameH frameW inBoxes s) := by
  constructor
  · rw [runStep]
    simp only [hff, Bool.false_eq_true, if_false]
  · intro env'
    rw [runStep, runStep]
    simp only [hff, Bool.false_eq_true, if_false]
    cases ifNewBboxAddTrack (inBoxes.map (formatBox frameH frameW)) s with
    | none => rfl
    | some r =>
      obtain ⟨a, b2⟩ := r
      rfl

/-- C7 witness: the env-independence of the tags applied at a concrete
RUNNING state: an all-failing and an all-succeeding tracker environment give
the same tags. -/
theorem association_uses_pre_update_snapshot_witness :
    Option.map Prod.fst (runStep envKeep 10 10 [boxUnit] sOne) =
      Option.map Prod.fst (runStep envNone 10 10 [boxUnit] sOne) :=
  (association_uses_pre_update_snapshot envNone 10 10 [boxUnit] sOne
    (by decide)).2 envKeep

/-- C8: under the registry invariant, every successful `run` call preserves
it, never decreases `next_object_id`, only ever holds ids that are positive,
and any id present afterwards is either an id present before or a strictly
larger id than every previously assigned one (so evicted ids are never
reused); moreover the concrete first frame with one detection returns the tag
`"1"` and the registry holds exactly the track id 1. -/
theorem track_ids_positive_monotone_fresh :
    (∀ (env : ℕ → Option Box) (frameH frameW : ℚ) (inBoxes : List Box)
        (s : TrackerState) (tags : List String) (s' : TrackerState),
      stateInv s → runStep env frameH frameW inBoxes s = some (tags, s') →
      stateInv s' ∧ s.nextObjectId ≤ s'.nextObjectId ∧
        (∀ id ∈ s'.trackingDict.map Prod.fst,
          id ∈ s.trackingDict.map Prod.fst ∨ s.nextObjectId < id) ∧
        (∀ id ∈ s'.trackingDict.map Prod.fst, 1 ≤ id)) ∧
    runStep envKeep 10 10 [boxUnit] initState = some (["1"], sOne) := by
  constructor
  · intro env frameH frameW inBoxes s tags s' hinv hrun
    obtain ⟨h1, h2, h3⟩ := runStep_inv hinv hrun
    exact ⟨h1, h2, h3, fun id hid => (h1.2 id hid).1⟩
  · decide

/-- C8 witness: the freshness statement applied at a concrete RUNNING state
and frame (empty detection list, failing tracker). -/
theorem track_ids_positive_monotone_fresh_witness :
    stateInv (⟨false, 1, []⟩ : TrackerState) ∧
    ∀ id ∈ ((⟨false, 1, []⟩ : TrackerState)).trackingDict.map Prod.fst,
      1 ≤ id := by
  have h := track_ids_positive_monotone_fresh.1 envNone 10 10 [] sOne []
    (⟨false, 1, []⟩ : TrackerState) (by decide) (by decide)
  exact ⟨h.1, h.2.2.2⟩

/-- C9 counterexample: one `run` call creating tracks 1 and 2 whose second
tracker immediately fails leaves the registry with last key 1 while
`next_object_id` is 2 — the last key does not always equal `next_object_id`
after an update/eviction pass. -/
theorem last_key_lags_next_id_counterexample :
    runStep envFirstOnly 10 10
      [⟨0, 0, 3/10, 3/10⟩, ⟨5/10, 5/10, 9/10, 9/10⟩] initState =
      some (["1", "2"], (⟨false, 2, [(1, boxPix)]⟩ : TrackerState)) ∧
    ((⟨false, 2, [(1, boxPix)]⟩ : TrackerState).trackingDict.map
        Prod.fst).getLast? ≠
      some (⟨false, 2, [(1, boxPix)]⟩ : TrackerState).nextObjectId := by
  exact ⟨by decide, by decide⟩

/-- C9 (amended): the registry keys always form a strictly increasing
sequence (preserved by every successful `run` call), and immediately after
`_initialize_tracker` the last key equals the updated `next_object_id`, which
is the id just assigned — this is what makes the last-inserted lookup used for
tagging new tracks correct; after an eviction the last key can lag behind
`next_object_id`. -/
theorem registry_keys_sorted_last_inserted (b : Box) (s : TrackerState)
    (hinv : stateInv s) :
    List.Pairwise (· < ·) ((initializeTracker b s).trackingDict.map Prod.fst) ∧
    ((initializeTracker b s).trackingDict.map Prod.fst).getLast? =
      some ((initializeTracker b s).nextObjectId) ∧
    (initializeTracker b s).nextObjectId = s.nextObjectId + 1 ∧
    ∀ (env : ℕ → Option Box) (frameH frameW : ℚ) (inBoxes : List Box)
      (tags : List String) (s' : TrackerState),
      runStep env frameH frameW inBoxes s = some (tags, s') →
      List.Pairwise (· < ·) (s'.trackingDict.map Prod.fst) := by
  refine ⟨(stateInv_initializeTracker b hinv).1, ?_, rfl, ?_⟩
  · rw [initializeTracker_getLast b hinv]
    rfl
  · intro env frameH frameW inBoxes tags s' hrun
    exact (runStep_inv hinv hrun).1.1

/-- C9 witness: the last-inserted lookup applied right after initializing a
track on a concrete state. -/
theorem registry_keys_sorted_last_inserted_witness :
    ((initializeTracker boxPix sOne).trackingDict.map Prod.fst).getLast? =
      some ((initializeTracker boxPix sOne).nextObjectId) :=
  (registry_keys_sorted_last_inserted boxPix sOne (by decide)).2.1

end Claims

end OpenCVTracking
